import Mathlib

/-!
# IAM role/policy resolution for worker nodes — verification development

Shallow embedding of `pkg/cfn/builder/iam_helper.go`: the managed-policy
resolver `makeManagedPolicies`, the role assembler `createRole`, and the
pure utility `NormalizeARN`, together with models of the small external
collaborators they use (the Kubernetes string-set, the AWS ARN parser and
the CloudFormation value constructors).  CloudFormation intrinsic values
(`gfnt.Value`) are modelled as the literal strings they render to.
-/

namespace IamHelper

/-- Tri-state addon flag: Go `*bool`, where `nil` means unset.
Modelled from the spec: `api.IsEnabled(v *bool)` (declared outside the
provided source) is true exactly when the flag is set and true — "tri-state
enabled/disabled/unset, where unset defaults to disabled". -/
def isEnabled : Option Bool → Bool
  | some b => b
  | none => false

/-- Cluster-level IAM configuration (`api.ClusterIAM`): whether workload
identity federation (OIDC) is enabled. -/
structure ClusterIAM where
  withOIDC : Option Bool
deriving DecidableEq, Repr

/-- The addon feature flags of `api.NodeGroupIAMAddonPolicies`. -/
structure AddonPolicies where
  autoScaler : Option Bool := none
  certManager : Option Bool := none
  externalDNS : Option Bool := none
  appMesh : Option Bool := none
  appMeshPreview : Option Bool := none
  ebs : Option Bool := none
  fsx : Option Bool := none
  efs : Option Bool := none
  albIngress : Option Bool := none
  xray : Option Bool := none
  imageBuilder : Option Bool := none
  cloudWatch : Option Bool := none
deriving DecidableEq, Repr

/-- Node-group IAM configuration (`api.NodeGroupIAM`). -/
structure NodeGroupIAM where
  instanceRoleName : String := ""
  instanceRolePermissionsBoundary : String := ""
  attachPolicyARNs : List String := []
  withAddonPolicies : AddonPolicies := {}
deriving DecidableEq, Repr

/-! ## Well-known managed policy names

Modelled from the spec: the `iamPolicy*` constants are declared outside the
provided source file; the spec and the source comments name the policies
(read-only and power-user container registry, CNI networking, SSM core,
CloudWatch agent), which carry their standard AWS names. -/

def iamPolicyAmazonEKSCNIPolicy : String := "AmazonEKS_CNI_Policy"

def iamPolicyAmazonEC2ContainerRegistryReadOnly : String :=
  "AmazonEC2ContainerRegistryReadOnly"

def iamPolicyAmazonEC2ContainerRegistryPowerUser : String :=
  "AmazonEC2ContainerRegistryPowerUser"

def iamPolicyAmazonSSMManagedInstanceCore : String :=
  "AmazonSSMManagedInstanceCore"

def iamPolicyCloudWatchAgentServerPolicy : String :=
  "CloudWatchAgentServerPolicy"

/-- Modelled from the spec: `iamDefaultNodePolicies`, the baseline default
bundle of §4.2 step 1, is declared outside the provided source.  The
registry-pull and CloudWatch policies the spec mentions alongside it are
inserted by the dedicated conditional steps of `makeManagedPolicies`
(managed-node-group insert, image-builder step, cloud-metrics step), whose
flag-dependence the spec's testable properties require; the bundle itself
therefore carries the worker-node baseline policy. -/
def iamDefaultNodePolicies : List String := ["AmazonEKSWorkerNodePolicy"]

/-! ## Kubernetes string-set (`k8s.io/apimachinery/pkg/util/sets`)

`sets.String` is a set of strings; `List()` returns the members sorted.
Modelled as a duplicate-free list of members with a sorted enumeration. -/

def setInsert (s : List String) (x : String) : List String :=
  if x ∈ s then s else s ++ [x]

def setInsertMany (s : List String) (xs : List String) : List String :=
  xs.foldl setInsert s

def setDelete (s : List String) (x : String) : List String :=
  s.filter (fun y => y ≠ x)

/-- Lexicographic comparison of character lists: Go `sort.Strings`
compares strings byte-wise, which for UTF-8 agrees with the
codepoint-lexicographic order used here. -/
def charListLe : List Char → List Char → Bool
  | [], _ => true
  | _ :: _, [] => false
  | a :: as, b :: bs => if a = b then charListLe as bs else decide (a < b)

def stringLeB (a b : String) : Bool := charListLe a.data b.data

/-- `sets.String.List()`: the members in sorted (lexicographic) order. -/
def setList (s : List String) : List String :=
  List.insertionSort (fun a b => stringLeB a b = true) s

/-! ## AWS ARN parsing (`github.com/aws/aws-sdk-go/aws/arn`)

Modelled from the spec: the ARN parsing utility is an external collaborator
(excluded from the spec's scope).  An ARN has the shape
`arn:partition:service:region:account-id:resource`; parsing fails when the
`arn:` prefix is missing or the string has fewer than six `:`-separated
sections (the resource section absorbs any further `:`). -/

structure ARN where
  partition : String
  service : String
  region : String
  accountID : String
  resource : String
deriving DecidableEq, Repr

/-- Split at the first occurrence of `sep`, returning the characters before
and after it. -/
def splitFirst (sep : Char) : List Char → Option (List Char × List Char)
  | [] => none
  | c :: cs =>
    if c = sep then some ([], cs)
    else
      match splitFirst sep cs with
      | none => none
      | some (b, a) => some (c :: b, a)

/-- Go `strings.SplitN(s, sep, n)` on character lists (for `n ≥ 1`): at most
`n` pieces, the last piece absorbing the remainder. -/
def splitNChar (sep : Char) : Nat → List Char → List (List Char)
  | 0, _ => []
  | 1, cs => [cs]
  | Nat.succ m, cs =>
    match splitFirst sep cs with
    | none => [cs]
    | some (b, a) => b :: splitNChar sep m a

def arnParse (s : String) : Except String ARN :=
  if s.data.take 4 = "arn:".data then
    match (splitNChar ':' 6 s.data).map (fun cs => String.mk cs) with
    | [_, p, sv, r, a, res] => .ok ⟨p, sv, r, a, res⟩
    | _ => .error ("arn: not enough sections in: " ++ s)
  else .error ("arn: invalid prefix: " ++ s)

/-! ## The managed-policy resolver (`makeManagedPolicies`) -/

/-- The resource-name extraction of `makeManagedPolicies`'s attach loop:
`start := strings.IndexRune(resource, '/')`; fail when there is no `/` or
the first `/` is the final character, else return the part after the
first `/`. -/
def resourceNameAfterSlash : List Char → Option (List Char)
  | [] => none
  | c :: cs =>
    if c = '/' then (if cs.isEmpty then none else some cs)
    else resourceNameAfterSlash cs

def resourceNameOf (resource : String) : Option String :=
  (resourceNameAfterSlash resource.data).map (fun cs => String.mk cs)

/-- Modelled from the spec: `makePolicyARN` (declared outside the provided
source) resolves a short managed-policy name to its full,
partition-qualified ARN at emission time. -/
def makePolicyARN (policyName : String) : String :=
  "arn:$\x7bAWS::Partition\x7d:iam::aws:policy/" ++ policyName

def makePolicyARNs (policyNames : List String) : List String :=
  policyNames.map makePolicyARN

/-- The set of short policy names accumulated by `makeManagedPolicies`
before the attach-list loop runs (lines 277–305 of the source). -/
def baseNames (iamCluster : ClusterIAM) (iamConfig : NodeGroupIAM)
    (managed enableSSM : Bool) : List String :=
  let s0 : List String := []
  let s1 :=
    if iamConfig.attachPolicyARNs.isEmpty then
      let t := setInsertMany s0 iamDefaultNodePolicies
      let t := if !(isEnabled iamCluster.withOIDC) then
          setInsert t iamPolicyAmazonEKSCNIPolicy else t
      let t := if managed then
          setInsert t iamPolicyAmazonEC2ContainerRegistryReadOnly else t
      t
    else s0
  let s2 := if enableSSM then
      setInsert s1 iamPolicyAmazonSSMManagedInstanceCore else s1
  let s3 := if isEnabled iamConfig.withAddonPolicies.imageBuilder then
      setInsert s2 iamPolicyAmazonEC2ContainerRegistryPowerUser
    else if !managed then
      setInsert s2 iamPolicyAmazonEC2ContainerRegistryReadOnly
    else s2
  let s4 := if isEnabled iamConfig.withAddonPolicies.cloudWatch then
      setInsert s3 iamPolicyCloudWatchAgentServerPolicy else s3
  s4

/-- The attach-list loop of `makeManagedPolicies` (lines 307–318): for each
explicitly attached ARN, parse it, extract its resource name and delete
that name from the accumulated set; any failure aborts with an error. -/
def deleteAttachedPolicyNames (s : List String) :
    List String → Except String (List String)
  | [] => .ok s
  | policyARN :: rest =>
    match arnParse policyARN with
    | .error e => .error e
    | .ok parsedARN =>
      match resourceNameOf parsedARN.resource with
      | none =>
        .error ("failed to find ARN resource name: " ++ parsedARN.resource)
      | some resourceName =>
        deleteAttachedPolicyNames (setDelete s resourceName) rest

def makeManagedPolicies (iamCluster : ClusterIAM) (iamConfig : NodeGroupIAM)
    (managed enableSSM : Bool) : Except String (List String) :=
  match deleteAttachedPolicyNames
      (baseNames iamCluster iamConfig managed enableSSM)
      iamConfig.attachPolicyARNs with
  | .error e => .error e
  | .ok managedPolicyNames =>
    .ok (iamConfig.attachPolicyARNs ++ makePolicyARNs (setList managedPolicyNames))

/-- The resource name the attach loop extracts from one attach-list entry:
`none` when the entry does not parse as an ARN or its resource component
yields no name. -/
def attachResourceName (policyARN : String) : Option String :=
  match arnParse policyARN with
  | .error _ => none
  | .ok parsedARN => resourceNameOf parsedARN.resource

/-- An attach-list entry on which the attach loop fails: the ARN cannot be
parsed, or its resource component contains no `/`, or its first `/` is the
final character. -/
def badARN (policyARN : String) : Bool :=
  (attachResourceName policyARN).isNone

/-! ## ARN normalisation (`NormalizeARN`) -/

instance exceptDecEq {ε α : Type} [DecidableEq ε] [DecidableEq α] :
    DecidableEq (Except ε α) := fun x y =>
  match x, y with
  | .error a, .error b =>
    if h : a = b then .isTrue (by rw [h])
    else .isFalse (fun hc => h (Except.error.inj hc))
  | .ok a, .ok b =>
    if h : a = b then .isTrue (by rw [h])
    else .isFalse (fun hc => h (Except.ok.inj hc))
  | .error _, .ok _ => .isFalse (fun hc => Except.noConfusion hc)
  | .ok _, .error _ => .isFalse (fun hc => Except.noConfusion hc)

/-- Go `strings.Split(s, sep)` for a single-character separator, on
character lists. -/
def splitChar (sep : Char) : List Char → List (List Char)
  | [] => [[]]
  | c :: cs =>
    let r := splitChar sep cs
    if c = sep then [] :: r
    else
      match r with
      | [] => [[c]]
      | h :: t => (c :: h) :: t

/-- `NormalizeARN` returns the ARN with just the last element in the
resource path preserved; an input without a forward-slash is returned
unmodified (lines 334–340 of the source). -/
def NormalizeARN (arn : String) : String :=
  let parts := splitChar '/' arn.data
  if parts.length ≤ 1 then arn
  else String.mk (parts.headD []) ++ "/" ++ String.mk (parts.getLastD [])

/-! ## The role assembler (`createRole`)

The template-builder collaborator is modelled by the trace of calls made to
it: `newResource` registrations and `attachAllowPolicy` registrations, in
order.  `createRole` returns the trace together with `some error` when it
aborts, mirroring the Go early returns. -/

/-- One `attachAllowPolicy(name, refRole, resources, actions)` call. -/
structure AttachCall where
  name : String
  refRole : String
  resources : String
  actions : List String
deriving DecidableEq, Repr

/-- The IAM role definition handed to `newResource` (`gfniam.Role`). -/
structure IAMRole where
  path : String
  assumeRolePolicyDocument : String
  managedPolicyArns : List String
  roleName : Option String
  permissionsBoundary : Option String
deriving DecidableEq, Repr

/-- The collaborator trace: registered resources and attached policies. -/
structure Template where
  resources : List (String × IAMRole)
  attachedPolicies : List AttachCall
deriving DecidableEq, Repr

/-- Modelled from the spec: `addARNPartitionPrefix` (declared outside the
provided source) forms a partition-qualified ARN pattern. -/
def addARNPartitionPrefix (s : String) : String :=
  "arn:$\x7bAWS::Partition\x7d:" ++ s

/-- Modelled from the spec: the name under which the instance role resource
is registered (`cfnIAMInstanceRoleName`, declared outside the provided
source). -/
def cfnIAMInstanceRoleName : String := "NodeInstanceRole"

/-- Modelled from the spec: the trust-policy document for the
compute-instance (EC2) service principal, built by the external
`cft.MakeAssumeRolePolicyDocumentForServices(MakeServiceRef("EC2"))`
collaborators; modelled as an opaque-but-concrete string. -/
def assumeRolePolicyDocumentForEC2 : String :=
  "AssumeRolePolicyDocumentForServices(EC2)"

def autoScalerStatements (a : AddonPolicies) (refIR : String) : List AttachCall :=
  if isEnabled a.autoScaler then
    [⟨"PolicyAutoScaling", refIR, "*",
      ["autoscaling:DescribeAutoScalingGroups",
       "autoscaling:DescribeAutoScalingInstances",
       "autoscaling:DescribeLaunchConfigurations",
       "autoscaling:DescribeTags",
       "autoscaling:SetDesiredCapacity",
       "autoscaling:TerminateInstanceInAutoScalingGroup",
       "ec2:DescribeLaunchTemplateVersions"]⟩]
  else []

/-- The `hostedZonePolicy` action list of the certificate-manager branch:
the base listing actions, extended with external-DNS's listing actions when
that addon is also enabled. -/
def certManagerHostedZonesActions (a : AddonPolicies) : List String :=
  let hostedZonePolicy :=
    ["route53:ListResourceRecordSets", "route53:ListHostedZonesByName"]
  if isEnabled a.externalDNS then
    hostedZonePolicy ++ ["route53:ListHostedZones", "route53:ListTagsForResource"]
  else hostedZonePolicy

/-- The certificate-manager / external-DNS `if`/`else if` cascade
(lines 57–92 of the source). -/
def dnsStatements (a : AddonPolicies) (refIR : String) : List AttachCall :=
  if isEnabled a.certManager then
    [⟨"PolicyCertManagerChangeSet", refIR,
      addARNPartitionPrefix "route53:::hostedzone/*",
      ["route53:ChangeResourceRecordSets"]⟩,
     ⟨"PolicyCertManagerHostedZones", refIR, "*",
      certManagerHostedZonesActions a⟩,
     ⟨"PolicyCertManagerGetChange", refIR,
      addARNPartitionPrefix "route53:::change/*",
      ["route53:GetChange"]⟩]
  else if isEnabled a.externalDNS then
    [⟨"PolicyExternalDNSChangeSet", refIR,
      addARNPartitionPrefix "route53:::hostedzone/*",
      ["route53:ChangeResourceRecordSets"]⟩,
     ⟨"PolicyExternalDNSHostedZones", refIR, "*",
      ["route53:ListHostedZones",
       "route53:ListResourceRecordSets",
       "route53:ListTagsForResource"]⟩]
  else []

def appMeshActions : List String :=
  ["servicediscovery:CreateService",
   "servicediscovery:DeleteService",
   "servicediscovery:GetService",
   "servicediscovery:GetInstance",
   "servicediscovery:RegisterInstance",
   "servicediscovery:DeregisterInstance",
   "servicediscovery:ListInstances",
   "servicediscovery:ListNamespaces",
   "servicediscovery:ListServices",
   "servicediscovery:GetInstancesHealthStatus",
   "servicediscovery:UpdateInstanceCustomHealthStatus",
   "servicediscovery:GetOperation",
   "route53:GetHealthCheck",
   "route53:CreateHealthCheck",
   "route53:UpdateHealthCheck",
   "route53:ChangeResourceRecordSets",
   "route53:DeleteHealthCheck"]

def appMeshStatements (a : AddonPolicies) (refIR : String) : List AttachCall :=
  if isEnabled a.appMesh then
    [⟨"PolicyAppMesh", refIR, "*", appMeshActions ++ ["appmesh:*"]⟩]
  else []

def appMeshPreviewStatements (a : AddonPolicies) (refIR : String) :
    List AttachCall :=
  if isEnabled a.appMeshPreview then
    [⟨"PolicyAppMeshPreview", refIR, "*",
      appMeshActions ++ ["appmesh-preview:*"]⟩]
  else []

def ebsStatements (a : AddonPolicies) (refIR : String) : List AttachCall :=
  if isEnabled a.ebs then
    [⟨"PolicyEBS", refIR, "*",
      ["ec2:AttachVolume",
       "ec2:CreateSnapshot",
       "ec2:CreateTags",
       "ec2:CreateVolume",
       "ec2:DeleteSnapshot",
       "ec2:DeleteTags",
       "ec2:DeleteVolume",
       "ec2:DescribeAvailabilityZones",
       "ec2:DescribeInstances",
       "ec2:DescribeSnapshots",
       "ec2:DescribeTags",
       "ec2:DescribeVolumes",
       "ec2:DescribeVolumesModifications",
       "ec2:DetachVolume",
       "ec2:ModifyVolume"]⟩]
  else []

def fsxStatements (a : AddonPolicies) (refIR : String) : List AttachCall :=
  if isEnabled a.fsx then
    [⟨"PolicyFSX", refIR, "*", ["fsx:*"]⟩,
     ⟨"PolicyServiceLinkRole", refIR,
      addARNPartitionPrefix "iam::*:role/aws-service-role/*",
      ["iam:CreateServiceLinkedRole",
       "iam:AttachRolePolicy",
       "iam:PutRolePolicy"]⟩]
  else []

def efsStatements (a : AddonPolicies) (refIR : String) : List AttachCall :=
  if isEnabled a.efs then
    [⟨"PolicyEFS", refIR, "*", ["elasticfilesystem:*"]⟩,
     ⟨"PolicyEFSEC2", refIR, "*",
      ["ec2:DescribeSubnets",
       "ec2:CreateNetworkInterface",
       "ec2:DescribeNetworkInterfaces",
       "ec2:DeleteNetworkInterface",
       "ec2:ModifyNetworkInterfaceAttribute",
       "ec2:DescribeNetworkInterfaceAttribute"]⟩]
  else []

def albIngressStatements (a : AddonPolicies) (refIR : String) :
    List AttachCall :=
  if isEnabled a.albIngress then
    [⟨"PolicyALBIngress", refIR, "*",
      ["acm:DescribeCertificate",
       "acm:ListCertificates",
       "acm:GetCertificate",
       "ec2:AuthorizeSecurityGroupIngress",
       "ec2:CreateSecurityGroup",
       "ec2:CreateTags",
       "ec2:DeleteTags",
       "ec2:DeleteSecurityGroup",
       "ec2:DescribeAccountAttributes",
       "ec2:DescribeAddresses",
       "ec2:DescribeInstances",
       "ec2:DescribeInstanceStatus",
       "ec2:DescribeInternetGateways",
       "ec2:DescribeNetworkInterfaces",
       "ec2:DescribeSecurityGroups",
       "ec2:DescribeSubnets",
       "ec2:DescribeTags",
       "ec2:DescribeVpcs",
       "ec2:ModifyInstanceAttribute",
       "ec2:ModifyNetworkInterfaceAttribute",
       "ec2:RevokeSecurityGroupIngress",
       "elasticloadbalancing:AddListenerCertificates",
       "elasticloadbalancing:AddTags",
       "elasticloadbalancing:CreateListener",
       "elasticloadbalancing:CreateLoadBalancer",
       "elasticloadbalancing:CreateRule",
       "elasticloadbalancing:CreateTargetGroup",
       "elasticloadbalancing:DeleteListener",
       "elasticloadbalancing:DeleteLoadBalancer",
       "elasticloadbalancing:DeleteRule",
       "elasticloadbalancing:DeleteTargetGroup",
       "elasticloadbalancing:DeregisterTargets",
       "elasticloadbalancing:DescribeListenerCertificates",
       "elasticloadbalancing:DescribeListeners",
       "elasticloadbalancing:DescribeLoadBalancers",
       "elasticloadbalancing:DescribeLoadBalancerAttributes",
       "elasticloadbalancing:DescribeRules",
       "elasticloadbalancing:DescribeSSLPolicies",
       "elasticloadbalancing:DescribeTags",
       "elasticloadbalancing:DescribeTargetGroups",
       "elasticloadbalancing:DescribeTargetGroupAttributes",
       "elasticloadbalancing:DescribeTargetHealth",
       "elasticloadbalancing:ModifyListener",
       "elasticloadbalancing:ModifyLoadBalancerAttributes",
       "elasticloadbalancing:ModifyRule",
       "elasticloadbalancing:ModifyTargetGroup",
       "elasticloadbalancing:ModifyTargetGroupAttributes",
       "elasticloadbalancing:RegisterTargets",
       "elasticloadbalancing:RemoveListenerCertificates",
       "elasticloadbalancing:RemoveTags",
       "elasticloadbalancing:SetIpAddressType",
       "elasticloadbalancing:SetSecurityGroups",
       "elasticloadbalancing:SetSubnets",
       "elasticloadbalancing:SetWebACL",
       "iam:CreateServiceLinkedRole",
       "iam:GetServerCertificate",
       "iam:ListServerCertificates",
       "waf-regional:GetWebACLForResource",
       "waf-regional:GetWebACL",
       "waf-regional:AssociateWebACL",
       "waf-regional:DisassociateWebACL",
       "tag:GetResources",
       "tag:TagResources",
       "waf:GetWebACL",
       "wafv2:GetWebACL",
       "wafv2:GetWebACLForResource",
       "wafv2:AssociateWebACL",
       "wafv2:DisassociateWebACL",
       "shield:DescribeProtection",
       "shield:GetSubscriptionState",
       "shield:DeleteProtection",
       "shield:CreateProtection",
       "shield:DescribeSubscription",
       "shield:ListProtections"]⟩]
  else []

def xrayStatements (a : AddonPolicies) (refIR : String) : List AttachCall :=
  if isEnabled a.xray then
    [⟨"PolicyXRay", refIR, "*",
      ["xray:PutTraceSegments",
       "xray:PutTelemetryRecords",
       "xray:GetSamplingRules",
       "xray:GetSamplingTargets",
       "xray:GetSamplingStatisticSummaries"]⟩]
  else []

/-- All `attachAllowPolicy` calls a successful `createRole` run makes, in
source order (lines 43–272). -/
def addonStatements (a : AddonPolicies) (refIR : String) : List AttachCall :=
  autoScalerStatements a refIR ++ dnsStatements a refIR ++
  appMeshStatements a refIR ++ appMeshPreviewStatements a refIR ++
  ebsStatements a refIR ++ fsxStatements a refIR ++ efsStatements a refIR ++
  albIngressStatements a refIR ++ xrayStatements a refIR

/-- `createRole` (lines 22–274): resolve the managed-policy set, failing
fast (an error leaves the collaborator untouched); otherwise register the
role resource and attach each enabled addon's policy statements. -/
def createRole (clusterIAMConfig : ClusterIAM) (iamConfig : NodeGroupIAM)
    (managed enableSSM : Bool) : Template × Option String :=
  match makeManagedPolicies clusterIAMConfig iamConfig managed enableSSM with
  | .error e => (⟨[], []⟩, some e)
  | .ok managedPolicyARNs =>
    let role : IAMRole :=
      { path := "/"
        assumeRolePolicyDocument := assumeRolePolicyDocumentForEC2
        managedPolicyArns := managedPolicyARNs
        roleName :=
          if iamConfig.instanceRoleName ≠ "" then
            some iamConfig.instanceRoleName
          else none
        permissionsBoundary :=
          if iamConfig.instanceRolePermissionsBoundary ≠ "" then
            some iamConfig.instanceRolePermissionsBoundary
          else none }
    let refIR := cfnIAMInstanceRoleName
    (⟨[(cfnIAMInstanceRoleName, role)],
      addonStatements iamConfig.withAddonPolicies refIR⟩, none)

/-! ## Properties of the lexicographic comparison -/

theorem charListLe_iff : ∀ (a b : List Char),
    charListLe a b = true ↔ ¬ List.Lex (fun c d : Char => c < d) b a
  | [], b => by
    refine iff_of_true rfl ?_
    intro h
    cases h
  | x :: xs, [] => by
    refine iff_of_false ?_ (not_not_intro List.Lex.nil)
    intro h
    cases h
  | x :: xs, y :: ys => by
    by_cases hxy : x = y
    · subst hxy
      show (if x = x then charListLe xs ys else decide (x < x)) = true ↔ _
      rw [if_pos rfl, charListLe_iff xs ys]
      constructor
      · intro h hlt
        cases hlt with
        | cons h' => exact h h'
        | rel h' => exact absurd h' (lt_irrefl x)
      · intro h h'
        exact h (List.Lex.cons h')
    · show (if x = y then charListLe xs ys else decide (x < y)) = true ↔ _
      rw [if_neg hxy]
      rcases lt_or_gt_of_ne hxy with hlt | hgt
      · refine iff_of_true (by simp only [decide_eq_true_eq]; exact hlt) ?_
        intro hc
        cases hc with
        | cons h' => exact hxy rfl
        | rel h' => exact absurd hlt (asymm h')
      · refine iff_of_false ?_ (not_not_intro (List.Lex.rel hgt))
        simp only [decide_eq_true_eq]
        exact asymm hgt

theorem stringLeB_iff (a b : String) : stringLeB a b = true ↔ a ≤ b := by
  rw [stringLeB, charListLe_iff, String.le_iff_toList_le]
  show ¬ b.toList < a.toList ↔ a.toList ≤ b.toList
  exact not_lt

theorem stringLeB_total (a b : String) :
    stringLeB a b = true ∨ stringLeB b a = true := by
  rw [stringLeB_iff, stringLeB_iff]
  exact le_total a b

theorem stringLeB_trans {a b c : String} (h₁ : stringLeB a b = true)
    (h₂ : stringLeB b c = true) : stringLeB a c = true := by
  rw [stringLeB_iff] at h₁ h₂ ⊢
  exact le_trans h₁ h₂

instance : IsTotal String (fun a b => stringLeB a b = true) :=
  ⟨stringLeB_total⟩

instance : IsTrans String (fun a b => stringLeB a b = true) :=
  ⟨fun _ _ _ => stringLeB_trans⟩

/-! ## Set-operation lemmas -/

theorem mem_setInsert {s : List String} {x y : String} :
    x ∈ setInsert s y ↔ x = y ∨ x ∈ s := by
  unfold setInsert
  split
  · rename_i h
    constructor
    · exact Or.inr
    · rintro (rfl | hx)
      · exact h
      · exact hx
  · simp [or_comm]

theorem mem_setInsertMany {xs : List String} :
    ∀ {s : List String} {x : String},
      x ∈ setInsertMany s xs ↔ x ∈ xs ∨ x ∈ s := by
  induction xs with
  | nil => simp [setInsertMany]
  | cons a as ih =>
    intro s x
    show x ∈ setInsertMany (setInsert s a) as ↔ _
    rw [ih, mem_setInsert]
    simp [or_comm, or_assoc]
    tauto

theorem mem_setDelete {s : List String} {x y : String} :
    x ∈ setDelete s y ↔ x ∈ s ∧ x ≠ y := by
  simp [setDelete]

theorem setDelete_subset {s : List String} {y : String} :
    setDelete s y ⊆ s := by
  intro x hx
  exact (mem_setDelete.mp hx).1

theorem nodup_setInsert {s : List String} {y : String} (h : s.Nodup) :
    (setInsert s y).Nodup := by
  unfold setInsert
  split
  · exact h
  · rename_i hy
    simpa [List.nodup_append] using ⟨h, fun hmem => hy hmem⟩

theorem nodup_setInsertMany {xs : List String} :
    ∀ {s : List String}, s.Nodup → (setInsertMany s xs).Nodup := by
  induction xs with
  | nil => exact fun h => h
  | cons a as ih =>
    intro s h
    exact ih (nodup_setInsert h)

theorem nodup_setDelete {s : List String} {y : String} (h : s.Nodup) :
    (setDelete s y).Nodup :=
  h.filter _

theorem mem_setList {s : List String} {x : String} :
    x ∈ setList s ↔ x ∈ s :=
  (List.perm_insertionSort _ s).mem_iff

theorem nodup_setList {s : List String} (h : s.Nodup) :
    (setList s).Nodup :=
  ((List.perm_insertionSort _ s).nodup_iff).mpr h

theorem sorted_setList (s : List String) :
    (setList s).Sorted (fun a b => stringLeB a b = true) :=
  List.sorted_insertionSort _ s

/-! ## Characterisation of the pre-deletion policy-name set -/

theorem mem_baseNames {x : String} {c : ClusterIAM} {i : NodeGroupIAM}
    {m ssm : Bool} :
    x ∈ baseNames c i m ssm ↔
      (i.attachPolicyARNs.isEmpty = true ∧
        (x ∈ iamDefaultNodePolicies ∨
         (isEnabled c.withOIDC = false ∧ x = iamPolicyAmazonEKSCNIPolicy) ∨
         (m = true ∧ x = iamPolicyAmazonEC2ContainerRegistryReadOnly))) ∨
      (ssm = true ∧ x = iamPolicyAmazonSSMManagedInstanceCore) ∨
      (isEnabled i.withAddonPolicies.imageBuilder = true ∧
        x = iamPolicyAmazonEC2ContainerRegistryPowerUser) ∨
      (isEnabled i.withAddonPolicies.imageBuilder = false ∧ m = false ∧
        x = iamPolicyAmazonEC2ContainerRegistryReadOnly) ∨
      (isEnabled i.withAddonPolicies.cloudWatch = true ∧
        x = iamPolicyCloudWatchAgentServerPolicy) := by
  unfold baseNames
  split_ifs <;>
    simp_all [mem_setInsert, mem_setInsertMany, Bool.not_eq_true] <;>
    tauto

/-! ## Lemmas about the attach-list deletion loop -/

theorem deleteAttached_ok_subset {l : List String} :
    ∀ {s s' : List String}, deleteAttachedPolicyNames s l = .ok s' → s' ⊆ s := by
  induction l with
  | nil =>
    intro s s' h
    simp only [deleteAttachedPolicyNames] at h
    injection h with h
    subst h
    exact fun x hx => hx
  | cons a rest ih =>
    intro s s' h
    unfold deleteAttachedPolicyNames at h
    cases hp : arnParse a with
    | error e => simp [hp] at h
    | ok p =>
      simp only [hp] at h
      cases hr : resourceNameOf p.resource with
      | none => simp [hr] at h
      | some n =>
        simp only [hr] at h
        exact (ih h).trans setDelete_subset

theorem deleteAttached_deletes {l : List String} :
    ∀ {s s' : List String} {a n : String}, a ∈ l →
      attachResourceName a = some n →
      deleteAttachedPolicyNames s l = .ok s' → n ∉ s' := by
  induction l with
  | nil =>
    intro s s' a n ha
    cases ha
  | cons a' rest ih =>
    intro s s' a n ha hn h
    unfold deleteAttachedPolicyNames at h
    cases hp : arnParse a' with
    | error e => simp [hp] at h
    | ok p =>
      simp only [hp] at h
      cases hr : resourceNameOf p.resource with
      | none => simp [hr] at h
      | some n' =>
        simp only [hr] at h
        rcases List.mem_cons.mp ha with rfl | hmem
        · have hnn : n' = n := by
            simp only [attachResourceName, hp, hr, Option.some.injEq] at hn
            exact hn
          subst hnn
          intro hc
          have := deleteAttached_ok_subset h hc
          exact (mem_setDelete.mp this).2 rfl
        · exact ih hmem hn h

theorem deleteAttached_preserves {l : List String} :
    ∀ {s s' : List String} {x : String},
      deleteAttachedPolicyNames s l = .ok s' → x ∈ s →
      (∀ a ∈ l, attachResourceName a ≠ some x) → x ∈ s' := by
  induction l with
  | nil =>
    intro s s' x h hx _
    simp only [deleteAttachedPolicyNames] at h
    injection h with h
    subst h
    exact hx
  | cons a rest ih =>
    intro s s' x h hx hall
    unfold deleteAttachedPolicyNames at h
    cases hp : arnParse a with
    | error e => simp [hp] at h
    | ok p =>
      simp only [hp] at h
      cases hr : resourceNameOf p.resource with
      | none => simp [hr] at h
      | some n =>
        simp only [hr] at h
        refine ih h (mem_setDelete.mpr ⟨hx, ?_⟩)
          (fun a' ha' => hall a' (List.mem_cons_of_mem _ ha'))
        intro hxn
        subst hxn
        exact hall a (List.mem_cons_self a rest)
          (by simp only [attachResourceName, hp, hr])

theorem deleteAttached_error_of_bad {l : List String} :
    ∀ {s : List String}, (∃ a ∈ l, badARN a = true) →
      ∃ e, deleteAttachedPolicyNames s l = .error e := by
  induction l with
  | nil =>
    intro s h
    rcases h with ⟨a, ha, _⟩
    cases ha
  | cons a rest ih =>
    intro s h
    cases hn : attachResourceName a with
    | none =>
      rw [attachResourceName] at hn
      cases hp : arnParse a with
      | error e =>
        exact ⟨e, by unfold deleteAttachedPolicyNames; simp only [hp]⟩
      | ok p =>
        simp only [hp] at hn
        refine ⟨"failed to find ARN resource name: " ++ p.resource, ?_⟩
        unfold deleteAttachedPolicyNames
        simp only [hp, hn]
    | some n =>
      rcases h with ⟨a', ha', hbad⟩
      rcases List.mem_cons.mp ha' with rfl | hmem
      · rw [badARN, hn] at hbad
        cases hbad
      · rw [attachResourceName] at hn
        cases hp : arnParse a with
        | error e => simp [hp] at hn
        | ok p =>
          simp only [hp] at hn
          rcases ih (s := setDelete s n) ⟨a', hmem, hbad⟩ with ⟨e, he⟩
          refine ⟨e, ?_⟩
          unfold deleteAttachedPolicyNames
          simp only [hp, hn]
          exact he

/-! ## Characterisation of `makeManagedPolicies` -/

theorem makePolicyARN_injective : Function.Injective makePolicyARN := by
  intro a b h
  unfold makePolicyARN at h
  have hd := congrArg String.data h
  simp only [String.data_append] at hd
  exact String.ext (List.append_cancel_left hd)

theorem mem_makePolicyARNs {x : String} {ns : List String} :
    makePolicyARN x ∈ makePolicyARNs ns ↔ x ∈ ns :=
  List.mem_map_of_injective makePolicyARN_injective

theorem makeManagedPolicies_ok_iff {c : ClusterIAM} {i : NodeGroupIAM}
    {m ssm : Bool} {l : List String} :
    makeManagedPolicies c i m ssm = .ok l ↔
      ∃ s', deleteAttachedPolicyNames (baseNames c i m ssm)
          i.attachPolicyARNs = .ok s' ∧
        l = i.attachPolicyARNs ++ makePolicyARNs (setList s') := by
  unfold makeManagedPolicies
  cases h : deleteAttachedPolicyNames (baseNames c i m ssm)
      i.attachPolicyARNs with
  | error e => simp [h]
  | ok s' => simp [h, eq_comm]

theorem makeManagedPolicies_error_iff {c : ClusterIAM} {i : NodeGroupIAM}
    {m ssm : Bool} {e : String} :
    makeManagedPolicies c i m ssm = .error e ↔
      deleteAttachedPolicyNames (baseNames c i m ssm)
        i.attachPolicyARNs = .error e := by
  unfold makeManagedPolicies
  cases h : deleteAttachedPolicyNames (baseNames c i m ssm)
      i.attachPolicyARNs with
  | error e' => simp [h]
  | ok s' => simp [h]

/-- With an empty attach-list the deletion loop is vacuous, so the result
is exactly the sorted, ARN-resolved base-name set. -/
theorem makeManagedPolicies_empty_attach {c : ClusterIAM} {i : NodeGroupIAM}
    {m ssm : Bool} (he : i.attachPolicyARNs = []) :
    makeManagedPolicies c i m ssm =
      .ok (makePolicyARNs (setList (baseNames c i m ssm))) := by
  rw [makeManagedPolicies_ok_iff]
  refine ⟨baseNames c i m ssm, ?_, by rw [he]; rfl⟩
  rw [he]
  rfl

theorem nodup_baseNames {c : ClusterIAM} {i : NodeGroupIAM} {m ssm : Bool} :
    (baseNames c i m ssm).Nodup := by
  unfold baseNames
  split_ifs <;>
    first
      | exact List.nodup_nil
      | (repeat'
          first
            | exact List.nodup_nil
            | apply nodup_setInsert
            | apply nodup_setInsertMany)

theorem deleteAttached_nodup {l : List String} :
    ∀ {s s' : List String}, deleteAttachedPolicyNames s l = .ok s' →
      s.Nodup → s'.Nodup := by
  induction l with
  | nil =>
    intro s s' h hs
    simp only [deleteAttachedPolicyNames] at h
    injection h with h
    subst h
    exact hs
  | cons a rest ih =>
    intro s s' h hs
    unfold deleteAttachedPolicyNames at h
    cases hp : arnParse a with
    | error e => simp [hp] at h
    | ok p =>
      simp only [hp] at h
      cases hr : resourceNameOf p.resource with
      | none => simp [hr] at h
      | some n =>
        simp only [hr] at h
        exact ih h (nodup_setDelete hs)

theorem deleteAttached_ok_good {l : List String} :
    ∀ {s s' : List String}, deleteAttachedPolicyNames s l = .ok s' →
      ∀ a ∈ l, ∃ n, attachResourceName a = some n := by
  induction l with
  | nil =>
    intro s s' _ a ha
    cases ha
  | cons a' rest ih =>
    intro s s' h a ha
    unfold deleteAttachedPolicyNames at h
    cases hp : arnParse a' with
    | error e => simp [hp] at h
    | ok p =>
      simp only [hp] at h
      cases hr : resourceNameOf p.resource with
      | none => simp [hr] at h
      | some n =>
        simp only [hr] at h
        rcases List.mem_cons.mp ha with rfl | hmem
        · exact ⟨n, by simp only [attachResourceName, hp, hr]⟩
        · exact ih h a hmem

/-- Every member of the pre-deletion set is one of the six well-known
short policy names. -/
theorem mem_baseNames_names {x : String} {c : ClusterIAM} {i : NodeGroupIAM}
    {m ssm : Bool} (h : x ∈ baseNames c i m ssm) :
    x ∈ ["AmazonEKSWorkerNodePolicy", iamPolicyAmazonEKSCNIPolicy,
      iamPolicyAmazonEC2ContainerRegistryReadOnly,
      iamPolicyAmazonSSMManagedInstanceCore,
      iamPolicyAmazonEC2ContainerRegistryPowerUser,
      iamPolicyCloudWatchAgentServerPolicy] := by
  rw [mem_baseNames] at h
  rcases h with ⟨_, hd | ⟨_, rfl⟩ | ⟨_, rfl⟩⟩ | ⟨_, rfl⟩ | ⟨_, rfl⟩ |
    ⟨_, _, rfl⟩ | ⟨_, rfl⟩ <;>
    simp_all [iamDefaultNodePolicies]

/-- The attach loop's resource-name extraction recovers the short name from
a resolved default-policy ARN, for each of the well-known names. -/
theorem attachResourceName_makePolicyARN {x : String}
    (h : x ∈ ["AmazonEKSWorkerNodePolicy", iamPolicyAmazonEKSCNIPolicy,
      iamPolicyAmazonEC2ContainerRegistryReadOnly,
      iamPolicyAmazonSSMManagedInstanceCore,
      iamPolicyAmazonEC2ContainerRegistryPowerUser,
      iamPolicyCloudWatchAgentServerPolicy]) :
    attachResourceName (makePolicyARN x) = some x := by
  simp only [iamPolicyAmazonEKSCNIPolicy,
    iamPolicyAmazonEC2ContainerRegistryReadOnly,
    iamPolicyAmazonSSMManagedInstanceCore,
    iamPolicyAmazonEC2ContainerRegistryPowerUser,
    iamPolicyCloudWatchAgentServerPolicy,
    List.mem_cons, List.not_mem_nil, or_false] at h
  rcases h with rfl | rfl | rfl | rfl | rfl | rfl <;> decide

/-! ## Claim C1 -/

/-- C1 fails as stated: a managed node-group with a non-empty attach-list
resolves to a set without the read-only container-registry policy, so
"regardless of whether an explicit attach-list is supplied" is refuted at
this concrete input. -/
theorem managed_readonly_counterexample :
    makeManagedPolicies ⟨none⟩
        { attachPolicyARNs := ["arn:aws:iam::123456789012:policy/Foo"] }
        true false =
      .ok ["arn:aws:iam::123456789012:policy/Foo"] ∧
    makePolicyARN iamPolicyAmazonEC2ContainerRegistryReadOnly ∉
      (["arn:aws:iam::123456789012:policy/Foo"] : List String) :=
  ⟨by decide, by decide⟩

/-- C1 (amended): for every configuration with the managed flag set and an
empty attach-list, the resolved managed-policy set contains the read-only
container-registry policy, regardless of every other flag. -/
theorem managed_readonly_of_empty_attach {c : ClusterIAM} {i : NodeGroupIAM}
    {s : Bool} {l : List String} (he : i.attachPolicyARNs = [])
    (h : makeManagedPolicies c i true s = .ok l) :
    makePolicyARN iamPolicyAmazonEC2ContainerRegistryReadOnly ∈ l := by
  rw [makeManagedPolicies_empty_attach he] at h
  have hl := Except.ok.inj h
  subst hl
  rw [mem_makePolicyARNs, mem_setList, mem_baseNames]
  exact Or.inl ⟨by simp [he], Or.inr (Or.inr ⟨rfl, rfl⟩)⟩

/-- C1 (witness): the amended claim applied at a concrete managed
configuration with no attach-list. -/
theorem managed_readonly_of_empty_attach_witness :
    makePolicyARN iamPolicyAmazonEC2ContainerRegistryReadOnly ∈
      makePolicyARNs [iamPolicyAmazonEC2ContainerRegistryReadOnly,
        "AmazonEKSWorkerNodePolicy", iamPolicyAmazonEKSCNIPolicy] :=
  @managed_readonly_of_empty_attach ⟨none⟩ { attachPolicyARNs := [] }
    false _ rfl (by decide)

/-! ## Claim C2 -/

/-- C2: an attach-list entry that does not parse as an ARN, or whose
resource component has no `/`, or whose first `/` is its final character,
makes `makeManagedPolicies` fail with an error and no result, and
`createRole` propagates that error before any collaborator call: the
template trace is empty. -/
theorem malformed_arn_aborts {c : ClusterIAM} {i : NodeGroupIAM}
    {m s : Bool} (hbad : ∃ a ∈ i.attachPolicyARNs, badARN a = true) :
    ∃ e, makeManagedPolicies c i m s = .error e ∧
      createRole c i m s = (⟨[], []⟩, some e) := by
  rcases deleteAttached_error_of_bad (s := baseNames c i m s) hbad with ⟨e, he⟩
  have hm := makeManagedPolicies_error_iff.mpr he
  refine ⟨e, hm, ?_⟩
  unfold createRole
  simp only [hm]

/-- C2 (witness): a resource component with no `/` aborts both the
resolver and the assembler, registering nothing. -/
theorem malformed_arn_aborts_witness :
    ∃ e, makeManagedPolicies ⟨none⟩
        { attachPolicyARNs := ["arn:aws:iam::123456789012:role"] }
        false false = .error e ∧
      createRole ⟨none⟩ { attachPolicyARNs := ["arn:aws:iam::123456789012:role"] }
        false false = (⟨[], []⟩, some e) :=
  malformed_arn_aborts ⟨"arn:aws:iam::123456789012:role", by decide, by decide⟩

/-! ## Claim C3 -/

/-- C3: when an attach-list entry is a well-formed ARN whose resource name
equals a default-bundle short name, the result keeps the explicit ARN and
the default-bundle (resolved) form of that policy is absent. -/
theorem explicit_overrides_default {c : ClusterIAM} {i : NodeGroupIAM}
    {m s : Bool} {l : List String} {a n : String}
    (h : makeManagedPolicies c i m s = .ok l)
    (ha : a ∈ i.attachPolicyARNs)
    (hn : attachResourceName a = some n)
    (_hdef : n ∈ iamDefaultNodePolicies)
    (hlit : makePolicyARN n ∉ i.attachPolicyARNs) :
    a ∈ l ∧ makePolicyARN n ∉ l := by
  rcases makeManagedPolicies_ok_iff.mp h with ⟨s', hdel, rfl⟩
  refine ⟨List.mem_append_left _ ha, ?_⟩
  intro hmem
  rcases List.mem_append.mp hmem with hatt | hport
  · exact hlit hatt
  · exact deleteAttached_deletes ha hn hdel
      (mem_setList.mp (mem_makePolicyARNs.mp hport))

/-- C3 (witness): overriding the worker-node default with an explicit
account-local ARN keeps the explicit entry and drops the default form. -/
theorem explicit_overrides_default_witness :
    "arn:aws:iam::123456789012:policy/AmazonEKSWorkerNodePolicy" ∈
      (["arn:aws:iam::123456789012:policy/AmazonEKSWorkerNodePolicy"] :
        List String) ∧
    makePolicyARN "AmazonEKSWorkerNodePolicy" ∉
      (["arn:aws:iam::123456789012:policy/AmazonEKSWorkerNodePolicy"] :
        List String) :=
  @explicit_overrides_default ⟨none⟩
    { attachPolicyARNs :=
        ["arn:aws:iam::123456789012:policy/AmazonEKSWorkerNodePolicy"] }
    true false _ _ _ (by decide) (by decide) (by decide) (by decide) (by decide)

/-! ## Claim C4 -/

/-- C4 fails as stated: a managed node-group with an empty attach-list and
the image-builder addon enabled resolves to a set containing both the
power-user and the read-only container-registry policies, refuting "for
every configuration with image-builder enabled ... the read-only
container-registry policy is absent". -/
theorem registry_policies_counterexample :
    makeManagedPolicies ⟨none⟩
        { attachPolicyARNs := [],
          withAddonPolicies := { imageBuilder := some true } } true false =
      .ok (makePolicyARNs
        [iamPolicyAmazonEC2ContainerRegistryPowerUser,
         iamPolicyAmazonEC2ContainerRegistryReadOnly,
         "AmazonEKSWorkerNodePolicy", iamPolicyAmazonEKSCNIPolicy]) ∧
    makePolicyARN iamPolicyAmazonEC2ContainerRegistryReadOnly ∈
      makePolicyARNs
        [iamPolicyAmazonEC2ContainerRegistryPowerUser,
         iamPolicyAmazonEC2ContainerRegistryReadOnly,
         "AmazonEKSWorkerNodePolicy", iamPolicyAmazonEKSCNIPolicy] :=
  ⟨by decide, by decide⟩

/-- C4 (amended, restricted to self-managed node-groups as the spec's §8
property states it): with image-builder disabled the read-only policy is
resolved even alongside a non-empty attach-list, unless an attach entry's
resource name overrides it; with image-builder enabled the power-user
policy is resolved (unless overridden the same way) and the resolver never
contributes the read-only policy — it can only appear as a literal
attach-list entry. -/
theorem self_managed_registry_policies {c : ClusterIAM} {i : NodeGroupIAM}
    {s : Bool} {l : List String}
    (h : makeManagedPolicies c i false s = .ok l) :
    ((isEnabled i.withAddonPolicies.imageBuilder = false ∧
        ∀ a ∈ i.attachPolicyARNs, attachResourceName a ≠
          some iamPolicyAmazonEC2ContainerRegistryReadOnly) →
      makePolicyARN iamPolicyAmazonEC2ContainerRegistryReadOnly ∈ l) ∧
    ((isEnabled i.withAddonPolicies.imageBuilder = true ∧
        ∀ a ∈ i.attachPolicyARNs, attachResourceName a ≠
          some iamPolicyAmazonEC2ContainerRegistryPowerUser) →
      makePolicyARN iamPolicyAmazonEC2ContainerRegistryPowerUser ∈ l) ∧
    ((isEnabled i.withAddonPolicies.imageBuilder = true ∧
        makePolicyARN iamPolicyAmazonEC2ContainerRegistryReadOnly ∉
          i.attachPolicyARNs) →
      makePolicyARN iamPolicyAmazonEC2ContainerRegistryReadOnly ∉ l) := by
  rcases makeManagedPolicies_ok_iff.mp h with ⟨s', hdel, rfl⟩
  refine ⟨?_, ?_, ?_⟩
  · rintro ⟨hib, hsafe⟩
    have hbase : iamPolicyAmazonEC2ContainerRegistryReadOnly ∈
        baseNames c i false s := by
      rw [mem_baseNames]
      exact Or.inr (Or.inr (Or.inr (Or.inl ⟨hib, rfl, rfl⟩)))
    exact List.mem_append_right _ (mem_makePolicyARNs.mpr
      (mem_setList.mpr (deleteAttached_preserves hdel hbase hsafe)))
  · rintro ⟨hib, hsafe⟩
    have hbase : iamPolicyAmazonEC2ContainerRegistryPowerUser ∈
        baseNames c i false s := by
      rw [mem_baseNames]
      exact Or.inr (Or.inr (Or.inl ⟨hib, rfl⟩))
    exact List.mem_append_right _ (mem_makePolicyARNs.mpr
      (mem_setList.mpr (deleteAttached_preserves hdel hbase hsafe)))
  · rintro ⟨hib, hlit⟩ hmem
    rcases List.mem_append.mp hmem with hatt | hport
    · exact hlit hatt
    · have hb := deleteAttached_ok_subset hdel
        (mem_setList.mp (mem_makePolicyARNs.mp hport))
      rw [mem_baseNames] at hb
      simp [hib, iamDefaultNodePolicies, iamPolicyAmazonEKSCNIPolicy,
        iamPolicyAmazonEC2ContainerRegistryReadOnly,
        iamPolicyAmazonSSMManagedInstanceCore,
        iamPolicyAmazonEC2ContainerRegistryPowerUser,
        iamPolicyCloudWatchAgentServerPolicy] at hb

/-- C4 (witness): the amended claim applied at concrete self-managed
configurations exercising all three conjuncts. -/
theorem self_managed_registry_policies_witness :
    makePolicyARN iamPolicyAmazonEC2ContainerRegistryReadOnly ∈
      (["arn:aws:iam::123456789012:policy/Foo"] ++
        makePolicyARNs [iamPolicyAmazonEC2ContainerRegistryReadOnly]) ∧
    makePolicyARN iamPolicyAmazonEC2ContainerRegistryPowerUser ∈
      makePolicyARNs [iamPolicyAmazonEC2ContainerRegistryPowerUser,
        "AmazonEKSWorkerNodePolicy"] ∧
    makePolicyARN iamPolicyAmazonEC2ContainerRegistryReadOnly ∉
      makePolicyARNs [iamPolicyAmazonEC2ContainerRegistryPowerUser,
        "AmazonEKSWorkerNodePolicy"] :=
  ⟨(@self_managed_registry_policies ⟨some true⟩
      ⟨"", "", ["arn:aws:iam::123456789012:policy/Foo"], {}⟩ false _
      (by decide)).1 ⟨rfl, by decide⟩,
   (@self_managed_registry_policies ⟨some true⟩
      ⟨"", "", [], { imageBuilder := some true }⟩ false _
      (by decide)).2.1 ⟨rfl, by decide⟩,
   (@self_managed_registry_policies ⟨some true⟩
      ⟨"", "", [], { imageBuilder := some true }⟩ false _
      (by decide)).2.2 ⟨rfl, by decide⟩⟩

/-! ## Claim C6 -/

/-- C6: with an empty attach-list the resolved set contains the
CNI-networking policy exactly when workload-identity federation (OIDC) is
disabled at the cluster level. -/
theorem cni_policy_iff_oidc_disabled {c : ClusterIAM} {i : NodeGroupIAM}
    {m s : Bool} {l : List String} (he : i.attachPolicyARNs = [])
    (h : makeManagedPolicies c i m s = .ok l) :
    (isEnabled c.withOIDC = false →
      makePolicyARN iamPolicyAmazonEKSCNIPolicy ∈ l) ∧
    (isEnabled c.withOIDC = true →
      makePolicyARN iamPolicyAmazonEKSCNIPolicy ∉ l) := by
  rw [makeManagedPolicies_empty_attach he] at h
  have hl := Except.ok.inj h
  subst hl
  constructor
  · intro ho
    rw [mem_makePolicyARNs, mem_setList, mem_baseNames]
    exact Or.inl ⟨by simp [he], Or.inr (Or.inl ⟨ho, rfl⟩)⟩
  · intro ho hmem
    rw [mem_makePolicyARNs, mem_setList, mem_baseNames] at hmem
    simp [ho, iamDefaultNodePolicies, iamPolicyAmazonEKSCNIPolicy,
      iamPolicyAmazonEC2ContainerRegistryReadOnly,
      iamPolicyAmazonSSMManagedInstanceCore,
      iamPolicyAmazonEC2ContainerRegistryPowerUser,
      iamPolicyCloudWatchAgentServerPolicy] at hmem

/-- C6 (witness): both directions at concrete configurations differing
only in the OIDC flag. -/
theorem cni_policy_iff_oidc_disabled_witness :
    makePolicyARN iamPolicyAmazonEKSCNIPolicy ∈
      makePolicyARNs [iamPolicyAmazonEC2ContainerRegistryReadOnly,
        "AmazonEKSWorkerNodePolicy", iamPolicyAmazonEKSCNIPolicy] ∧
    makePolicyARN iamPolicyAmazonEKSCNIPolicy ∉
      makePolicyARNs [iamPolicyAmazonEC2ContainerRegistryReadOnly,
        "AmazonEKSWorkerNodePolicy"] :=
  ⟨(@cni_policy_iff_oidc_disabled ⟨none⟩ {} false false _ rfl (by decide)).1
      rfl,
   (@cni_policy_iff_oidc_disabled ⟨some true⟩ {} false false _ rfl
      (by decide)).2 rfl⟩

/-! ## Claim C7 -/

/-- C7 fails as stated: a repeated attach-list entry is passed through
verbatim, so the result is not duplicate-free. -/
theorem result_duplicate_freedom_counterexample :
    makeManagedPolicies ⟨none⟩
        { attachPolicyARNs := ["arn:aws:iam::123456789012:policy/Foo",
            "arn:aws:iam::123456789012:policy/Foo"] } true false =
      .ok ["arn:aws:iam::123456789012:policy/Foo",
        "arn:aws:iam::123456789012:policy/Foo"] ∧
    ¬ (["arn:aws:iam::123456789012:policy/Foo",
        "arn:aws:iam::123456789012:policy/Foo"] : List String).Nodup :=
  ⟨by decide, by decide⟩

/-- C7 (amended): the resolver-contributed portion of the result is
duplicate-free and disjoint from the attach-list (an overridden policy
never reappears from the default set), and the whole result is
duplicate-free whenever the caller-supplied attach-list is. -/
theorem result_duplicate_freedom {c : ClusterIAM} {i : NodeGroupIAM}
    {m s : Bool} {l : List String}
    (h : makeManagedPolicies c i m s = .ok l) :
    ∃ d, l = i.attachPolicyARNs ++ d ∧ d.Nodup ∧
      (∀ a ∈ i.attachPolicyARNs, a ∉ d) ∧
      (i.attachPolicyARNs.Nodup → l.Nodup) := by
  rcases makeManagedPolicies_ok_iff.mp h with ⟨s', hdel, rfl⟩
  have hdn : (makePolicyARNs (setList s')).Nodup :=
    List.Nodup.map makePolicyARN_injective
      (nodup_setList (deleteAttached_nodup hdel nodup_baseNames))
  have hdisj : ∀ a ∈ i.attachPolicyARNs, a ∉ makePolicyARNs (setList s') := by
    intro a ha hmem
    rcases List.mem_map.mp hmem with ⟨x, hx, hax⟩
    have hxs : x ∈ s' := mem_setList.mp hx
    have harn : attachResourceName a = some x := by
      rw [← hax]
      exact attachResourceName_makePolicyARN
        (mem_baseNames_names (deleteAttached_ok_subset hdel hxs))
    exact deleteAttached_deletes ha harn hdel hxs
  exact ⟨makePolicyARNs (setList s'), rfl, hdn, hdisj,
    fun hnd => List.Nodup.append hnd hdn hdisj⟩

/-- C7 (witness): the amended claim at a concrete config with one
overriding attach entry. -/
theorem result_duplicate_freedom_witness :
    ∃ d, (["arn:aws:iam::123456789012:policy/Foo",
        makePolicyARN iamPolicyAmazonEC2ContainerRegistryReadOnly] :
          List String) =
      ["arn:aws:iam::123456789012:policy/Foo"] ++ d ∧ d.Nodup ∧
      (∀ a ∈ (["arn:aws:iam::123456789012:policy/Foo"] : List String),
        a ∉ d) ∧
      ((["arn:aws:iam::123456789012:policy/Foo"] : List String).Nodup →
        (["arn:aws:iam::123456789012:policy/Foo",
          makePolicyARN iamPolicyAmazonEC2ContainerRegistryReadOnly] :
            List String).Nodup) :=
  @result_duplicate_freedom ⟨some true⟩
    ⟨"", "", ["arn:aws:iam::123456789012:policy/Foo"], {}⟩ false false _
    (by decide)

/-! ## Claim C8 -/

/-- C8: the result places the explicit attach-list first, in caller order,
followed by the remaining default names resolved to full ARNs in
lexicographic order of their short names; the result is uniquely
determined by the configuration. -/
theorem result_order {c : ClusterIAM} {i : NodeGroupIAM} {m s : Bool}
    {l : List String} (h : makeManagedPolicies c i m s = .ok l) :
    (∃ ns : List String, l = i.attachPolicyARNs ++ ns.map makePolicyARN ∧
      ns.Sorted (fun a b => a ≤ b)) ∧
    ∀ t, makeManagedPolicies c i m s = .ok t → t = l := by
  rcases makeManagedPolicies_ok_iff.mp h with ⟨s', hdel, rfl⟩
  constructor
  · refine ⟨setList s', rfl, ?_⟩
    exact (sorted_setList s').imp (fun hab => (stringLeB_iff _ _).mp hab)
  · intro t ht
    rw [h] at ht
    exact (Except.ok.inj ht).symm

/-- C8 (witness): the ordering claim at a concrete configuration with one
explicit entry and one remaining default. -/
theorem result_order_witness :
    (∃ ns : List String, (["arn:aws:iam::123456789012:policy/Foo",
        makePolicyARN iamPolicyAmazonEC2ContainerRegistryReadOnly] :
          List String) =
      ["arn:aws:iam::123456789012:policy/Foo"] ++ ns.map makePolicyARN ∧
      ns.Sorted (fun a b => a ≤ b)) ∧
    ∀ t, makeManagedPolicies ⟨some true⟩
        ⟨"", "", ["arn:aws:iam::123456789012:policy/Foo"], {}⟩ false false =
        .ok t →
      t = ["arn:aws:iam::123456789012:policy/Foo",
        makePolicyARN iamPolicyAmazonEC2ContainerRegistryReadOnly] :=
  @result_order ⟨some true⟩
    ⟨"", "", ["arn:aws:iam::123456789012:policy/Foo"], {}⟩ false false _
    (by decide)

/-! ## Shapes of the addon policy segments -/

theorem autoScalerStatements_shape {a : AddonPolicies} {r : String} :
    ∀ st ∈ autoScalerStatements a r,
      st.name = "PolicyAutoScaling" ∧ st.resources = "*" := by
  unfold autoScalerStatements
  split <;> intro st hst <;> simp at hst
  subst hst
  exact ⟨rfl, rfl⟩

theorem appMeshStatements_shape {a : AddonPolicies} {r : String} :
    ∀ st ∈ appMeshStatements a r,
      st.name = "PolicyAppMesh" ∧ st.resources = "*" := by
  unfold appMeshStatements
  split <;> intro st hst <;> simp at hst
  subst hst
  exact ⟨rfl, rfl⟩

theorem appMeshPreviewStatements_shape {a : AddonPolicies} {r : String} :
    ∀ st ∈ appMeshPreviewStatements a r,
      st.name = "PolicyAppMeshPreview" ∧ st.resources = "*" := by
  unfold appMeshPreviewStatements
  split <;> intro st hst <;> simp at hst
  subst hst
  exact ⟨rfl, rfl⟩

theorem ebsStatements_shape {a : AddonPolicies} {r : String} :
    ∀ st ∈ ebsStatements a r,
      st.name = "PolicyEBS" ∧ st.resources = "*" := by
  unfold ebsStatements
  split <;> intro st hst <;> simp at hst
  subst hst
  exact ⟨rfl, rfl⟩

theorem fsxStatements_shape {a : AddonPolicies} {r : String} :
    ∀ st ∈ fsxStatements a r,
      (st.name = "PolicyFSX" ∧ st.resources = "*") ∨
      (st.name = "PolicyServiceLinkRole" ∧
        st.resources = addARNPartitionPrefix "iam::*:role/aws-service-role/*") := by
  unfold fsxStatements
  split <;> intro st hst <;> simp at hst
  rcases hst with rfl | rfl
  · exact Or.inl ⟨rfl, rfl⟩
  · exact Or.inr ⟨rfl, rfl⟩

theorem efsStatements_shape {a : AddonPolicies} {r : String} :
    ∀ st ∈ efsStatements a r,
      (st.name = "PolicyEFS" ∨ st.name = "PolicyEFSEC2") ∧
        st.resources = "*" := by
  unfold efsStatements
  split <;> intro st hst <;> simp at hst
  rcases hst with rfl | rfl
  · exact ⟨Or.inl rfl, rfl⟩
  · exact ⟨Or.inr rfl, rfl⟩

theorem albIngressStatements_shape {a : AddonPolicies} {r : String} :
    ∀ st ∈ albIngressStatements a r,
      st.name = "PolicyALBIngress" ∧ st.resources = "*" := by
  unfold albIngressStatements
  split <;> intro st hst <;> simp at hst
  subst hst
  exact ⟨rfl, rfl⟩

theorem xrayStatements_shape {a : AddonPolicies} {r : String} :
    ∀ st ∈ xrayStatements a r,
      st.name = "PolicyXRay" ∧ st.resources = "*" := by
  unfold xrayStatements
  split <;> intro st hst <;> simp at hst
  subst hst
  exact ⟨rfl, rfl⟩

/-- With certificate-manager enabled the DNS cascade takes the first
branch, whatever the external-DNS flag. -/
theorem dnsStatements_cert {a : AddonPolicies} {r : String}
    (hc : isEnabled a.certManager = true) :
    dnsStatements a r =
      [⟨"PolicyCertManagerChangeSet", r,
        addARNPartitionPrefix "route53:::hostedzone/*",
        ["route53:ChangeResourceRecordSets"]⟩,
       ⟨"PolicyCertManagerHostedZones", r, "*",
        certManagerHostedZonesActions a⟩,
       ⟨"PolicyCertManagerGetChange", r,
        addARNPartitionPrefix "route53:::change/*", ["route53:GetChange"]⟩] := by
  simp [dnsStatements, hc]

theorem certManagerHostedZonesActions_ext {a : AddonPolicies}
    (hx : isEnabled a.externalDNS = true) :
    certManagerHostedZonesActions a =
      ["route53:ListResourceRecordSets", "route53:ListHostedZonesByName",
       "route53:ListHostedZones", "route53:ListTagsForResource"] := by
  simp [certManagerHostedZonesActions, hx]

theorem certManagerHostedZonesActions_noext {a : AddonPolicies}
    (hx : isEnabled a.externalDNS = false) :
    certManagerHostedZonesActions a =
      ["route53:ListResourceRecordSets", "route53:ListHostedZonesByName"] := by
  simp [certManagerHostedZonesActions, hx]

/-- With certificate-manager enabled, every statement name a `createRole`
run attaches lies in this list (the external-DNS names are absent). -/
theorem mem_addonStatements_cert_names {a : AddonPolicies} {r : String}
    {st : AttachCall} (hc : isEnabled a.certManager = true)
    (hst : st ∈ addonStatements a r) :
    st.name ∈ ["PolicyAutoScaling", "PolicyCertManagerChangeSet",
      "PolicyCertManagerHostedZones", "PolicyCertManagerGetChange",
      "PolicyAppMesh", "PolicyAppMeshPreview", "PolicyEBS", "PolicyFSX",
      "PolicyServiceLinkRole", "PolicyEFS", "PolicyEFSEC2",
      "PolicyALBIngress", "PolicyXRay"] := by
  unfold addonStatements at hst
  simp only [List.mem_append] at hst
  rcases hst with ((((((((h | h) | h) | h) | h) | h) | h) | h) | h)
  · simp [(autoScalerStatements_shape st h).1]
  · rw [dnsStatements_cert hc] at h
    simp at h
    rcases h with rfl | rfl | rfl <;> simp
  · simp [(appMeshStatements_shape st h).1]
  · simp [(appMeshPreviewStatements_shape st h).1]
  · simp [(ebsStatements_shape st h).1]
  · rcases fsxStatements_shape st h with ⟨hn, _⟩ | ⟨hn, _⟩ <;> simp [hn]
  · rcases (efsStatements_shape st h).1 with hn | hn <;> simp [hn]
  · simp [(albIngressStatements_shape st h).1]
  · simp [(xrayStatements_shape st h).1]

/-! ## Statement names are pairwise distinct -/

theorem autoScalerStatements_names {a : AddonPolicies} {r : String} :
    ((autoScalerStatements a r).map AttachCall.name).Sublist
      ["PolicyAutoScaling"] := by
  unfold autoScalerStatements
  split
  · exact List.Sublist.refl _
  · exact List.nil_sublist _

theorem dnsStatements_names {a : AddonPolicies} {r : String} :
    ((dnsStatements a r).map AttachCall.name).Sublist
      ["PolicyCertManagerChangeSet", "PolicyCertManagerHostedZones",
       "PolicyCertManagerGetChange", "PolicyExternalDNSChangeSet",
       "PolicyExternalDNSHostedZones"] := by
  unfold dnsStatements
  split
  · exact List.sublist_append_left
      ["PolicyCertManagerChangeSet", "PolicyCertManagerHostedZones",
       "PolicyCertManagerGetChange"]
      ["PolicyExternalDNSChangeSet", "PolicyExternalDNSHostedZones"]
  · split
    · exact List.sublist_append_right
        ["PolicyCertManagerChangeSet", "PolicyCertManagerHostedZones",
         "PolicyCertManagerGetChange"]
        ["PolicyExternalDNSChangeSet", "PolicyExternalDNSHostedZones"]
    · exact List.nil_sublist _

theorem appMeshStatements_names {a : AddonPolicies} {r : String} :
    ((appMeshStatements a r).map AttachCall.name).Sublist ["PolicyAppMesh"] := by
  unfold appMeshStatements
  split
  · exact List.Sublist.refl _
  · exact List.nil_sublist _

theorem appMeshPreviewStatements_names {a : AddonPolicies} {r : String} :
    ((appMeshPreviewStatements a r).map AttachCall.name).Sublist
      ["PolicyAppMeshPreview"] := by
  unfold appMeshPreviewStatements
  split
  · exact List.Sublist.refl _
  · exact List.nil_sublist _

theorem ebsStatements_names {a : AddonPolicies} {r : String} :
    ((ebsStatements a r).map AttachCall.name).Sublist ["PolicyEBS"] := by
  unfold ebsStatements
  split
  · exact List.Sublist.refl _
  · exact List.nil_sublist _

theorem fsxStatements_names {a : AddonPolicies} {r : String} :
    ((fsxStatements a r).map AttachCall.name).Sublist
      ["PolicyFSX", "PolicyServiceLinkRole"] := by
  unfold fsxStatements
  split
  · exact List.Sublist.refl _
  · exact List.nil_sublist _

theorem efsStatements_names {a : AddonPolicies} {r : String} :
    ((efsStatements a r).map AttachCall.name).Sublist
      ["PolicyEFS", "PolicyEFSEC2"] := by
  unfold efsStatements
  split
  · exact List.Sublist.refl _
  · exact List.nil_sublist _

theorem albIngressStatements_names {a : AddonPolicies} {r : String} :
    ((albIngressStatements a r).map AttachCall.name).Sublist
      ["PolicyALBIngress"] := by
  unfold albIngressStatements
  split
  · exact List.Sublist.refl _
  · exact List.nil_sublist _

theorem xrayStatements_names {a : AddonPolicies} {r : String} :
    ((xrayStatements a r).map AttachCall.name).Sublist ["PolicyXRay"] := by
  unfold xrayStatements
  split
  · exact List.Sublist.refl _
  · exact List.nil_sublist _

/-- The statement names of one run, in order, form a sublist of the fixed
master list of all fifteen possible statement names. -/
theorem addonStatements_names_sublist {a : AddonPolicies} {r : String} :
    ((addonStatements a r).map AttachCall.name).Sublist
      ["PolicyAutoScaling", "PolicyCertManagerChangeSet",
       "PolicyCertManagerHostedZones", "PolicyCertManagerGetChange",
       "PolicyExternalDNSChangeSet", "PolicyExternalDNSHostedZones",
       "PolicyAppMesh", "PolicyAppMeshPreview", "PolicyEBS", "PolicyFSX",
       "PolicyServiceLinkRole", "PolicyEFS", "PolicyEFSEC2",
       "PolicyALBIngress", "PolicyXRay"] := by
  unfold addonStatements
  simp only [List.map_append]
  exact (((((((autoScalerStatements_names.append
    dnsStatements_names).append
    appMeshStatements_names).append
    appMeshPreviewStatements_names).append
    ebsStatements_names).append
    fsxStatements_names).append
    efsStatements_names).append
    albIngressStatements_names).append
    xrayStatements_names

/-- A successful `createRole` run attaches exactly the addon statements of
its configuration, against the instance-role reference. -/
theorem createRole_success_attached {c : ClusterIAM} {i : NodeGroupIAM}
    {m s : Bool} {t : Template} (h : createRole c i m s = (t, none)) :
    t.attachedPolicies =
      addonStatements i.withAddonPolicies cfnIAMInstanceRoleName := by
  unfold createRole at h
  cases hm : makeManagedPolicies c i m s with
  | error e =>
    simp only [hm] at h
    simp at h
  | ok arns =>
    simp only [hm] at h
    have h1 := congrArg (fun q => q.1.attachedPolicies) h
    simpa using h1.symm

/-- With certificate-manager enabled, any attached statement named
`PolicyCertManagerHostedZones` carries exactly the hosted-zones action
list (base actions, plus the external-DNS listing actions when that flag
is set). -/
theorem certManagerHostedZones_actions_of_success {c : ClusterIAM}
    {i : NodeGroupIAM} {m s : Bool} {t : Template}
    (hc : isEnabled i.withAddonPolicies.certManager = true)
    (h : createRole c i m s = (t, none)) :
    (⟨"PolicyCertManagerHostedZones", cfnIAMInstanceRoleName, "*",
      certManagerHostedZonesActions i.withAddonPolicies⟩ : AttachCall) ∈
      t.attachedPolicies ∧
    ∀ st ∈ t.attachedPolicies, st.name = "PolicyCertManagerHostedZones" →
      st.actions = certManagerHostedZonesActions i.withAddonPolicies := by
  rw [createRole_success_attached h]
  have hd : (⟨"PolicyCertManagerHostedZones", cfnIAMInstanceRoleName, "*",
      certManagerHostedZonesActions i.withAddonPolicies⟩ : AttachCall) ∈
      dnsStatements i.withAddonPolicies cfnIAMInstanceRoleName := by
    rw [dnsStatements_cert hc]
    simp
  have hmem : (⟨"PolicyCertManagerHostedZones", cfnIAMInstanceRoleName, "*",
      certManagerHostedZonesActions i.withAddonPolicies⟩ : AttachCall) ∈
      addonStatements i.withAddonPolicies cfnIAMInstanceRoleName := by
    unfold addonStatements
    simp [List.mem_append, hd]
  refine ⟨hmem, ?_⟩
  intro st hst hname
  have hnd : ((addonStatements i.withAddonPolicies
      cfnIAMInstanceRoleName).map AttachCall.name).Nodup :=
    addonStatements_names_sublist.nodup (by decide)
  have heq := List.inj_on_of_nodup_map hnd hst hmem (by rw [hname])
  rw [heq]

/-! ## Claim C5 -/

/-- C5: with certificate-manager and external-DNS both enabled, a
successful `createRole` emits exactly one hosted-zone change-record-sets
statement (the certificate-manager one; neither external-DNS statement is
emitted), and the hosted-zone listing statement's action list strictly
extends the certificate-manager-only list with the two external-DNS
listing actions. -/
theorem cert_manager_external_dns {c : ClusterIAM} {i : NodeGroupIAM}
    {m s : Bool} {t : Template}
    (hc : isEnabled i.withAddonPolicies.certManager = true)
    (hx : isEnabled i.withAddonPolicies.externalDNS = true)
    (h : createRole c i m s = (t, none)) :
    t.attachedPolicies.filter
        (fun st => st.resources ==
          addARNPartitionPrefix "route53:::hostedzone/*") =
      [⟨"PolicyCertManagerChangeSet", cfnIAMInstanceRoleName,
        addARNPartitionPrefix "route53:::hostedzone/*",
        ["route53:ChangeResourceRecordSets"]⟩] ∧
    "PolicyExternalDNSChangeSet" ∉ t.attachedPolicies.map AttachCall.name ∧
    "PolicyExternalDNSHostedZones" ∉ t.attachedPolicies.map AttachCall.name ∧
    (∀ st ∈ t.attachedPolicies, st.name = "PolicyCertManagerHostedZones" →
      st.actions = ["route53:ListResourceRecordSets",
        "route53:ListHostedZonesByName", "route53:ListHostedZones",
        "route53:ListTagsForResource"]) ∧
    (∀ c₂ i₂ m₂ s₂ t₂,
      isEnabled (i₂ : NodeGroupIAM).withAddonPolicies.certManager = true →
      isEnabled i₂.withAddonPolicies.externalDNS = false →
      createRole (c₂ : ClusterIAM) i₂ (m₂ : Bool) (s₂ : Bool) = (t₂, none) →
      ∀ st ∈ (t₂ : Template).attachedPolicies,
        st.name = "PolicyCertManagerHostedZones" →
        st.actions = ["route53:ListResourceRecordSets",
          "route53:ListHostedZonesByName"]) ∧
    (∀ x ∈ (["route53:ListResourceRecordSets",
        "route53:ListHostedZonesByName"] : List String),
      x ∈ (["route53:ListResourceRecordSets",
        "route53:ListHostedZonesByName", "route53:ListHostedZones",
        "route53:ListTagsForResource"] : List String)) ∧
    "route53:ListHostedZones" ∉ (["route53:ListResourceRecordSets",
      "route53:ListHostedZonesByName"] : List String) ∧
    "route53:ListTagsForResource" ∉ (["route53:ListResourceRecordSets",
      "route53:ListHostedZonesByName"] : List String) := by
  have ht := createRole_success_attached h
  refine ⟨?_, ?_, ?_, ?_, ?_, by decide, by decide, by decide⟩
  · rw [ht]
    unfold addonStatements
    simp only [List.filter_append]
    have f1 : (autoScalerStatements i.withAddonPolicies
        cfnIAMInstanceRoleName).filter
        (fun st => st.resources ==
          addARNPartitionPrefix "route53:::hostedzone/*") = [] :=
      List.filter_eq_nil_iff.mpr (fun st hst => by
        rw [(autoScalerStatements_shape st hst).2]
        decide)
    have f3 : (appMeshStatements i.withAddonPolicies
        cfnIAMInstanceRoleName).filter
        (fun st => st.resources ==
          addARNPartitionPrefix "route53:::hostedzone/*") = [] :=
      List.filter_eq_nil_iff.mpr (fun st hst => by
        rw [(appMeshStatements_shape st hst).2]
        decide)
    have f4 : (appMeshPreviewStatements i.withAddonPolicies
        cfnIAMInstanceRoleName).filter
        (fun st => st.resources ==
          addARNPartitionPrefix "route53:::hostedzone/*") = [] :=
      List.filter_eq_nil_iff.mpr (fun st hst => by
        rw [(appMeshPreviewStatements_shape st hst).2]
        decide)
    have f5 : (ebsStatements i.withAddonPolicies
        cfnIAMInstanceRoleName).filter
        (fun st => st.resources ==
          addARNPartitionPrefix "route53:::hostedzone/*") = [] :=
      List.filter_eq_nil_iff.mpr (fun st hst => by
        rw [(ebsStatements_shape st hst).2]
        decide)
    have f6 : (fsxStatements i.withAddonPolicies
        cfnIAMInstanceRoleName).filter
        (fun st => st.resources ==
          addARNPartitionPrefix "route53:::hostedzone/*") = [] :=
      List.filter_eq_nil_iff.mpr (fun st hst => by
        rcases fsxStatements_shape st hst with ⟨_, hr⟩ | ⟨_, hr⟩ <;>
          rw [hr] <;> decide)
    have f7 : (efsStatements i.withAddonPolicies
        cfnIAMInstanceRoleName).filter
        (fun st => st.resources ==
          addARNPartitionPrefix "route53:::hostedzone/*") = [] :=
      List.filter_eq_nil_iff.mpr (fun st hst => by
        rw [(efsStatements_shape st hst).2]
        decide)
    have f8 : (albIngressStatements i.withAddonPolicies
        cfnIAMInstanceRoleName).filter
        (fun st => st.resources ==
          addARNPartitionPrefix "route53:::hostedzone/*") = [] :=
      List.filter_eq_nil_iff.mpr (fun st hst => by
        rw [(albIngressStatements_shape st hst).2]
        decide)
    have f9 : (xrayStatements i.withAddonPolicies
        cfnIAMInstanceRoleName).filter
        (fun st => st.resources ==
          addARNPartitionPrefix "route53:::hostedzone/*") = [] :=
      List.filter_eq_nil_iff.mpr (fun st hst => by
        rw [(xrayStatements_shape st hst).2]
        decide)
    rw [f1, f3, f4, f5, f6, f7, f8, f9,
      dnsStatements_cert hc, certManagerHostedZonesActions_ext hx]
    simp only [List.nil_append, List.append_nil]
    decide
  · rw [ht]
    intro hmem
    rcases List.mem_map.mp hmem with ⟨st, hst, hname⟩
    have hn := mem_addonStatements_cert_names hc hst
    rw [hname] at hn
    exact absurd hn (by decide)
  · rw [ht]
    intro hmem
    rcases List.mem_map.mp hmem with ⟨st, hst, hname⟩
    have hn := mem_addonStatements_cert_names hc hst
    rw [hname] at hn
    exact absurd hn (by decide)
  · intro st hst hname
    rw [(certManagerHostedZones_actions_of_success hc h).2 st hst hname,
      certManagerHostedZonesActions_ext hx]
  · intro c₂ i₂ m₂ s₂ t₂ hc₂ hx₂ h₂ st hst hname
    rw [(certManagerHostedZones_actions_of_success hc₂ h₂).2 st hst hname,
      certManagerHostedZonesActions_noext hx₂]

/-- C5 (witness): the first conjunct of the claim at a concrete
configuration with both addons enabled. -/
theorem cert_manager_external_dns_witness :
    ((createRole ⟨none⟩
        ⟨"", "", [], { certManager := some true, externalDNS := some true }⟩
        false false).1.attachedPolicies.filter
      (fun st => st.resources ==
        addARNPartitionPrefix "route53:::hostedzone/*")) =
      [⟨"PolicyCertManagerChangeSet", cfnIAMInstanceRoleName,
        addARNPartitionPrefix "route53:::hostedzone/*",
        ["route53:ChangeResourceRecordSets"]⟩] :=
  (@cert_manager_external_dns ⟨none⟩
    ⟨"", "", [], { certManager := some true, externalDNS := some true }⟩
    false false _ rfl rfl (by decide)).1

/-! ## Claim C10 -/

/-- C10: within a single `createRole` invocation every attached policy
statement uses a distinct name (the certificate-manager and external-DNS
branches are mutually exclusive and all other statement names are
pairwise-distinct literals). -/
theorem statement_names_unique (c : ClusterIAM) (i : NodeGroupIAM)
    (m s : Bool) :
    ((createRole c i m s).1.attachedPolicies.map AttachCall.name).Nodup := by
  cases hm : makeManagedPolicies c i m s with
  | error e => simp [createRole, hm]
  | ok arns =>
    simp only [createRole, hm]
    exact addonStatements_names_sublist.nodup (by decide)

/-! ## Properties of `splitChar`, towards `NormalizeARN` -/

theorem splitChar_ne_nil {sep : Char} : ∀ cs : List Char,
    splitChar sep cs ≠ [] := by
  intro cs
  induction cs with
  | nil => simp [splitChar]
  | cons c cs ih =>
    simp only [splitChar]
    split
    · simp
    · cases h : splitChar sep cs with
      | nil => exact absurd h ih
      | cons hd tl => simp

theorem splitChar_of_not_mem {sep : Char} :
    ∀ {cs : List Char}, sep ∉ cs → splitChar sep cs = [cs] := by
  intro cs
  induction cs with
  | nil => intro _; rfl
  | cons c cs ih =>
    intro h
    simp only [List.mem_cons, not_or] at h
    simp only [splitChar]
    rw [if_neg (fun hcs => h.1 hcs.symm), ih h.2]

theorem two_le_splitChar_length {sep : Char} :
    ∀ {cs : List Char}, sep ∈ cs → 2 ≤ (splitChar sep cs).length := by
  intro cs
  induction cs with
  | nil => intro h; cases h
  | cons c cs ih =>
    intro h
    simp only [splitChar]
    split
    · cases hr : splitChar sep cs with
      | nil => exact absurd hr (splitChar_ne_nil cs)
      | cons a t => simp
    · rename_i hc
      have hmem : sep ∈ cs := by
        rcases List.mem_cons.mp h with hs | hm
        · exact absurd hs.symm hc
        · exact hm
      have h2 := ih hmem
      cases hr : splitChar sep cs with
      | nil => exact absurd hr (splitChar_ne_nil cs)
      | cons a t =>
        rw [hr] at h2
        simp only [List.length_cons] at h2 ⊢
        omega

theorem takeWhile_append_cons {p : Char → Bool} {x : Char}
    (hx : p x = false) :
    ∀ (l l' : List Char), (l ++ x :: l').takeWhile p = l.takeWhile p
  | [], l' => by simp [List.takeWhile_cons, hx]
  | c :: l, l' => by
    simp only [List.cons_append, List.takeWhile_cons]
    cases hc : p c
    · simp
    · simp [takeWhile_append_cons hx l l']

theorem takeWhile_append_of_mem {p : Char → Bool} {x : Char}
    (hx : p x = false) :
    ∀ {l : List Char}, x ∈ l → ∀ (l' : List Char),
      (l ++ l').takeWhile p = l.takeWhile p := by
  intro l
  induction l with
  | nil => intro h; cases h
  | cons c l ih =>
    intro h l'
    simp only [List.cons_append, List.takeWhile_cons]
    cases hc : p c
    · rfl
    · have hxl : x ∈ l := by
        rcases List.mem_cons.mp h with hs | hm
        · rw [hs, hc] at hx; cases hx
        · exact hm
      simp [ih hxl l']

theorem takeWhile_eq_self_of_all {p : Char → Bool} :
    ∀ {l : List Char}, (∀ c ∈ l, p c = true) → l.takeWhile p = l := by
  intro l
  induction l with
  | nil => intro _; rfl
  | cons c l ih =>
    intro h
    rw [List.takeWhile_cons, if_pos (h c (List.mem_cons_self c l)),
      ih (fun d hd => h d (List.mem_cons_of_mem c hd))]

theorem splitChar_headD {sep : Char} :
    ∀ (cs : List Char), (splitChar sep cs).headD [] =
      cs.takeWhile (fun c => c != sep) := by
  intro cs
  induction cs with
  | nil => rfl
  | cons c cs ih =>
    simp only [splitChar]
    split
    · rename_i hc
      subst hc
      simp [List.takeWhile_cons]
    · rename_i hc
      cases hr : splitChar sep cs with
      | nil => exact absurd hr (splitChar_ne_nil cs)
      | cons a t =>
        rw [hr] at ih
        simp only [List.headD_cons] at ih
        rw [List.takeWhile_cons, if_pos (by simpa using hc)]
        simp [ih]

theorem splitChar_getLastD {sep : Char} :
    ∀ (cs : List Char), (splitChar sep cs).getLastD [] =
      (cs.reverse.takeWhile (fun c => c != sep)).reverse := by
  intro cs
  induction cs with
  | nil => rfl
  | cons c cs ih =>
    simp only [splitChar]
    split
    · rename_i hc
      subst hc
      rw [List.getLastD_cons, ih, List.reverse_cons,
        takeWhile_append_cons (by simp) cs.reverse []]
    · rename_i hc
      cases hr : splitChar sep cs with
      | nil => exact absurd hr (splitChar_ne_nil cs)
      | cons a t =>
        rw [hr] at ih
        by_cases hmem : sep ∈ cs
        · have h2 := two_le_splitChar_length hmem
          rw [hr] at h2
          have ht : t ≠ [] := by
            intro h0
            rw [h0] at h2
            simp at h2
          rw [List.getLastD_cons]
          rw [List.getLastD_cons] at ih
          rw [List.getLastD_eq_getLast?] at ih ⊢
          cases hl : t.getLast? with
          | none => exact absurd (List.getLast?_eq_none_iff.mp hl) ht
          | some v =>
            rw [hl] at ih
            simp only [Option.getD_some] at ih ⊢
            rw [List.reverse_cons,
              takeWhile_append_of_mem (by simp) (List.mem_reverse.mpr hmem)
                [c]]
            exact ih
        · have hsingle := splitChar_of_not_mem hmem
          rw [hr] at hsingle
          injection hsingle with h1 h2
          rw [h1, h2]
          have hall : ∀ d ∈ (c :: cs).reverse, (d != sep) = true := by
            intro d hd
            rw [List.mem_reverse] at hd
            rcases List.mem_cons.mp hd with rfl | hm
            · simpa using hc
            · simp only [bne_iff_ne, ne_eq]
              intro hds
              rw [hds] at hm
              exact hmem hm
          rw [List.getLastD_cons, List.getLastD_nil,
            takeWhile_eq_self_of_all hall, List.reverse_reverse]

/-! ## Claim C9 -/

/-- C9: `NormalizeARN` is a total function on strings; an input without a
`/` is returned unchanged, and otherwise the result is the part before the
first `/`, a single `/`, and the part after the last `/`; in particular it
flattens a multi-segment role path, and the empty string is returned
unchanged. -/
theorem normalizeARN_spec (a : String) :
    ('/' ∉ a.data → NormalizeARN a = a) ∧
    ('/' ∈ a.data → NormalizeARN a =
      String.mk (a.data.takeWhile (fun c => c != '/')) ++ "/" ++
      String.mk (a.data.reverse.takeWhile (fun c => c != '/')).reverse) ∧
    NormalizeARN "arn:aws:iam::123:role/custom/path/MyRole" =
      "arn:aws:iam::123:role/MyRole" ∧
    NormalizeARN "" = "" := by
  refine ⟨?_, ?_, by decide, rfl⟩
  · intro h
    unfold NormalizeARN
    rw [splitChar_of_not_mem h]
    rfl
  · intro h
    unfold NormalizeARN
    have h2 := two_le_splitChar_length h
    rw [if_neg (by omega), splitChar_headD, splitChar_getLastD]

/-- C9 (witness): the no-separator and multi-segment clauses at concrete
inputs. -/
theorem normalizeARN_spec_witness :
    NormalizeARN "abc" = "abc" ∧
    NormalizeARN "a/b/c" =
      String.mk (("a/b/c" : String).data.takeWhile (fun c => c != '/')) ++
        "/" ++
      String.mk
        (("a/b/c" : String).data.reverse.takeWhile
          (fun c => c != '/')).reverse :=
  ⟨(normalizeARN_spec "abc").1 (by decide),
   (normalizeARN_spec "a/b/c").2.1 (by decide)⟩

end IamHelper
